import Mathlib

/-!
Shallow embedding of `scraper.py`: a map-search listing scraper that collects
(business_name, website) records per (query template, city) pair, deduplicates
them against a spreadsheet-backed store, and appends the novel ones.

The embedding models:
* the scroll loop of `scrape_city` (lines 113-126) as a fuel recursion over a
  per-round card-count sequence;
* the per-card extraction of `scrape_city` (lines 131-159) over an abstract
  card (optional name text, optional website href);
* `get_existing_websites` (lines 88-94), `init_google_sheet`'s header check
  (lines 77-83), and the dedup/persist loop of `main` (lines 192-202), with
  the sheet as a list of rows (lists of cells) and the Python set of keys as a
  list used only through membership;
* the orchestrator's template-major enumeration with its per-city
  catch-log-continue (lines 185-211).
-/

namespace Scraper

/-- `MAX_SCROLLS = 50` (scraper.py line 29). -/
def MAX_SCROLLS : Nat := 50

/-- `BUSINESS_QUERIES` (scraper.py lines 21-27). -/
def BUSINESS_QUERIES : List String :=
  ["Biodiversity Net Gain Survey Service in",
   "Biodiversity Consulting Service in",
   "Ecological Survey Service in",
   "Biodiversity Implementation Service in",
   "BNG Assessment Service in"]

/-- `CITIES` (scraper.py lines 31-44). -/
def CITIES : List String :=
  ["Bath", "Birmingham", "Bradford", "Brighton and Hove", "Bristol",
   "Cambridge", "Canterbury", "Carlisle", "Chelmsford", "Chester",
   "Chichester", "Colchester", "Coventry", "Derby", "Doncaster",
   "Durham", "Ely", "Exeter", "Gloucester", "Hereford",
   "Kingston upon Hull", "Lancaster", "Leeds", "Leicester", "Lichfield",
   "Lincoln", "Liverpool", "London", "Manchester", "Milton Keynes",
   "Newcastle upon Tyne", "Norwich", "Nottingham", "Oxford",
   "Peterborough", "Plymouth", "Portsmouth", "Preston", "Ripon",
   "Salford", "Sheffield", "Southampton", "Southend-on-Sea",
   "St Albans", "Stoke-on-Trent", "Sunderland", "Truro", "Wakefield",
   "Wells", "Westminster", "Winchester", "Wolverhampton", "Worcester",
   "York"]

/-- Python `str.strip()` with no argument: remove whitespace from both ends
of the string. Written over the character list so it evaluates by kernel
reduction. -/
def pyStrip (s : String) : String :=
  String.mk (((s.data.dropWhile Char.isWhitespace).reverse.dropWhile Char.isWhitespace).reverse)

/-- Python `str.lower()`: lowercase every character. Written over the
character list so it evaluates by kernel reduction. -/
def pyLower (s : String) : String :=
  String.mk (s.data.map Char.toLower)

/-- A rendered entry card, as `scrape_city` reads it: the inner text of the
`div.fontHeadlineSmall` name label when that locator matches, and the `href`
of the `a[data-value="Website"]` link when that locator matches and the
attribute is present (`none` covers both a missing link and a `None` href,
which Python treats identically via falsiness at line 143). -/
structure Card where
  nameText : Option String
  websiteHref : Option String
deriving DecidableEq

/-- An output record (`results.append({...})`, scraper.py lines 153-156). -/
structure Record where
  business_name : String
  website : String
deriving DecidableEq

/-- Per-card extraction, scraper.py lines 134-156: `website` defaults to the
empty string and is skipped when falsy (line 143); `name` is the stripped
label text, defaulting to empty; a record is appended only under
`if name and website` (line 152), storing `website.strip()`. -/
def extractCard (card : Card) : Option Record :=
  let website := card.websiteHref.getD ""
  if website = "" then none
  else
    let name := pyStrip (card.nameText.getD "")
    if name ≠ "" ∧ website ≠ "" then
      some { business_name := name, website := pyStrip website }
    else none

/-- The extraction pass over all rendered cards (scraper.py lines 131-159);
per-card exceptions skip just that card, which `filterMap` reflects. -/
def extractCards (cards : List Card) : List Record :=
  cards.filterMap extractCard

/-- The scroll loop of `scrape_city` (scraper.py lines 116-126), with the
per-round observed card counts abstracted as `counts`. `fuel` is the number
of remaining iterations of `for _ in range(MAX_SCROLLS)`, `prev` the
`previous_count` accumulator (initialised to 0 at line 114), and `i` the
0-indexed current round. The value returned is the number of rounds that
executed (the round that hits `break` included). -/
def scrollGo (counts : Nat → Nat) : Nat → Nat → Nat → Nat
  | 0, _, i => i
  | fuel + 1, prev, i =>
    if counts i = prev then i + 1
    else scrollGo counts fuel (counts i) (i + 1)

/-- Number of scroll rounds `scrape_city` performs on a feed with the given
per-round card counts. -/
def scrollRounds (counts : Nat → Nat) : Nat :=
  scrollGo counts MAX_SCROLLS 0 0

/-- `scrape_city` (scraper.py lines 99-162) on a feed, where `feed i` is the
list of cards rendered at round `i`; after the loop exits the extraction pass
reads the cards rendered at the last executed round. -/
def scrape_city (feed : Nat → List Card) : List Record :=
  extractCards (feed (scrollRounds (fun i => (feed i).length) - 1))

/-- The header row appended by `init_google_sheet` (scraper.py line 81). -/
def headerRow : List String := ["business_name", "website"]

/-- The header check of `init_google_sheet` (scraper.py lines 78-82): if the
first row is not exactly the header, the whole sheet is cleared and the
header appended, leaving `[headerRow]`. `headD []` models `row_values(1)`
returning `[]` on an empty sheet. -/
def init_google_sheet (sheet : List (List String)) : List (List String) :=
  if sheet.headD [] = headerRow then sheet else [headerRow]

/-- `get_existing_websites` (scraper.py lines 88-94): skip the header row,
keep rows with a truthy second cell, and collect `row[1].strip().lower()`.
The Python set is modelled as a list used only through membership. -/
def get_existing_websites (rows : List (List String)) : List String :=
  (rows.drop 1).filterMap fun row =>
    match row.get? 1 with
    | some cell => if cell = "" then none else some (pyLower (pyStrip cell))
    | none => none

/-- The per-batch dedup loop of `main` (scraper.py lines 192-199): for each
record, `website_key = r["website"].lower()`; if the key is not in the
known-set, the row `[business_name, website]` joins `new_rows` and the key
joins the set. Returns (`new_rows`, the extended known-set). -/
def processBatch (existing : List String) : List Record → List (List String) × List String
  | [] => ([], existing)
  | r :: rest =>
    let key := pyLower r.website
    if key ∈ existing then processBatch existing rest
    else
      let res := processBatch (key :: existing) rest
      ([r.business_name, r.website] :: res.1, res.2)

/-- The state `main` threads through the enumeration: the remote sheet and
the in-memory `existing_websites` set. -/
structure RunState where
  sheet : List (List String)
  existing : List String
deriving DecidableEq

/-- One city's dedup-and-persist step of `main` (scraper.py lines 192-203):
run the batch through the gate, then `append_rows(new_rows)` only when
`new_rows` is non-empty. -/
def processCity (st : RunState) (results : List Record) : RunState :=
  let res := processBatch st.existing results
  { sheet := if res.1 = [] then st.sheet else st.sheet ++ res.1,
    existing := res.2 }

/-- The whole run's sequence of per-city batches folded through the gate. -/
def runBatches (st : RunState) (batches : List (List Record)) : RunState :=
  batches.foldl processCity st

/-- One full run of `main` as it touches the store: header init, load of the
known-set, then all per-city batches. -/
def runOnce (sheet : List (List String)) (batches : List (List Record)) : List (List String) :=
  let s := init_google_sheet sheet
  (runBatches { sheet := s, existing := get_existing_websites s } batches).sheet

/-- The store's lifetime across successive runs of the program. -/
def runAll (sheet : List (List String)) (runs : List (List (List Record))) : List (List String) :=
  runs.foldl runOnce sheet

/-- The identity key a stored row denotes: its website column (cell 1),
trimmed and lowercased. -/
def rowNormKey (row : List String) : String :=
  pyLower (pyStrip (row.getD 1 ""))

/-- The key `main` computes for a pending row at append time: cell 1
lowercased (scraper.py line 194 applies `.lower()` only). -/
def rowMainKey (row : List String) : String :=
  pyLower (row.getD 1 "")

/-- A record whose website is already whitespace-trimmed and non-empty, as
every record built from a non-whitespace-only href is. -/
def goodRecord (r : Record) : Prop :=
  pyStrip r.website = r.website ∧ r.website ≠ ""

/-- A stored data row of the shape `main` appends, with a trimmed non-empty
website cell. -/
def rowGood (row : List String) : Prop :=
  ∃ n w, row = [n, w] ∧ w ≠ "" ∧ pyStrip w = w

/-- The store invariant: header in place, data rows well-shaped, and no two
data rows sharing an identity key. -/
def sheetInv (sheet : List (List String)) : Prop :=
  sheet.headD [] = headerRow ∧
  (∀ row ∈ sheet.drop 1, rowGood row) ∧
  (sheet.drop 1).Pairwise fun a b => rowNormKey a ≠ rowNormKey b

/-- The in-run invariant: the store invariant plus every stored data row's
key being in the in-memory known-set. -/
def stateInv (st : RunState) : Prop :=
  sheetInv st.sheet ∧ ∀ row ∈ st.sheet.drop 1, rowNormKey row ∈ st.existing

/-- The orchestrator's observable state: the threaded store/known-set state,
the (query, city) pairs processed so far in order, and the error log. -/
structure OrchState (σ ε : Type) where
  st : σ
  visited : List (String × String)
  errlog : List (String × ε)
deriving DecidableEq

/-- One city's step at the orchestrator level (scraper.py lines 189-211): the
body may raise; an exception is caught, `(city, error)` is logged, the state
is left as the body left it visible (no rollback is modelled beyond the store
state passed along), and the enumeration moves on. -/
def cityStep {σ ε : Type} (step : String → String → σ → Except ε σ) (q c : String)
    (os : OrchState σ ε) : OrchState σ ε :=
  match step q c os.st with
  | Except.ok s' => { st := s', visited := os.visited ++ [(q, c)], errlog := os.errlog }
  | Except.error e =>
    { st := os.st, visited := os.visited ++ [(q, c)], errlog := os.errlog ++ [(c, e)] }

/-- The full enumeration of `main` (scraper.py lines 185-211): template-major
over `BUSINESS_QUERIES` then `CITIES`, each pair processed exactly once. -/
def main_enum {σ ε : Type} (step : String → String → σ → Except ε σ) (s : σ) :
    OrchState σ ε :=
  BUSINESS_QUERIES.foldl
    (fun os q => CITIES.foldl (fun os2 c => cityStep step q c os2) os)
    { st := s, visited := [], errlog := [] }

/-- The template-major (query, city) enumeration order. -/
def templateMajor : List (String × String) :=
  BUSINESS_QUERIES.flatMap fun q => CITIES.map fun c => (q, c)

theorem scrollGo_stop {counts : Nat → Nat} {prev i fuel : Nat} (hf : 0 < fuel)
    (h : counts i = prev) : scrollGo counts fuel prev i = i + 1 := by
  cases fuel with
  | zero => exact absurd hf (by simp)
  | succ n => simp [scrollGo, h]

theorem scrollGo_step {counts : Nat → Nat} {prev i : Nat} (fuel : Nat)
    (h : counts i ≠ prev) :
    scrollGo counts (fuel + 1) prev i = scrollGo counts fuel (counts i) (i + 1) := by
  simp [scrollGo, h]

theorem scrollGo_le (counts : Nat → Nat) :
    ∀ (fuel prev i : Nat), scrollGo counts fuel prev i ≤ i + fuel := by
  intro fuel
  induction fuel with
  | zero => intro prev i; simp [scrollGo]
  | succ n ih =>
    intro prev i
    by_cases h : counts i = prev
    · rw [scrollGo_stop (Nat.succ_pos n) h]; omega
    · rw [scrollGo_step n h]
      have := ih (counts i) (i + 1)
      omega

theorem scrollGo_no_stop (counts : Nat → Nat) :
    ∀ (fuel i prev : Nat),
      (∀ j, i ≤ j → j < i + fuel → counts j ≠ if j = i then prev else counts (j - 1)) →
      scrollGo counts fuel prev i = i + fuel := by
  intro fuel
  induction fuel with
  | zero => intro i prev _; simp [scrollGo]
  | succ n ih =>
    intro i prev h
    have hi : counts i ≠ prev := by
      have := h i (Nat.le_refl i) (by omega)
      simpa using this
    rw [scrollGo_step n hi]
    have hrec := ih (i + 1) (counts i) (fun j hj1 hj2 => by
      by_cases hji : j = i + 1
      · subst hji
        have h2 := h (i + 1) (by omega) (by omega)
        have hne : i + 1 ≠ i := by omega
        simp only [if_neg hne] at h2
        simp only [if_pos rfl]
        simpa using h2
      · have h2 := h j (by omega) (by omega)
        have hji2 : j ≠ i := by omega
        simp only [if_neg hji2] at h2
        simp only [if_neg hji]
        exact h2)
    omega

theorem scrollGo_first_stop (counts : Nat → Nat) :
    ∀ (fuel i prev k : Nat), i ≤ k → k < i + fuel →
      (∀ j, i ≤ j → j < k → counts j ≠ if j = i then prev else counts (j - 1)) →
      (counts k = if k = i then prev else counts (k - 1)) →
      scrollGo counts fuel prev i = k + 1 := by
  intro fuel
  induction fuel with
  | zero => intro i prev k h1 h2 _ _; omega
  | succ n ih =>
    intro i prev k hik hk hno hstop
    by_cases hki : k = i
    · subst hki
      simp only [if_pos rfl] at hstop
      exact scrollGo_stop (Nat.succ_pos n) hstop
    · have hik2 : i < k := by omega
      have hi : counts i ≠ prev := by
        have := hno i (Nat.le_refl i) hik2
        simpa using this
      rw [scrollGo_step n hi]
      apply ih (i + 1) (counts i) k (by omega) (by omega)
      · intro j hj1 hj2
        by_cases hji : j = i + 1
        · subst hji
          have h2 := hno (i + 1) (by omega) hj2
          have hne : i + 1 ≠ i := by omega
          simp only [if_neg hne] at h2
          simp only [if_pos rfl]
          simpa using h2
        · have h2 := hno j (by omega) hj2
          have hji2 : j ≠ i := by omega
          simp only [if_neg hji2] at h2
          simp only [if_neg hji]
          exact h2
      · by_cases hki1 : k = i + 1
        · subst hki1
          simp only [if_pos rfl]
          have hne : i + 1 ≠ i := by omega
          simp only [if_neg hne] at hstop
          simpa using hstop
        · simp only [if_neg hki1]
          simp only [if_neg hki] at hstop
          exact hstop

/-- Claim C5: for a feed whose per-round card counts are [3, 7, 7, 9], the
scroll loop stops at the round where the count 7 repeats (3 rounds run, the
later increase to 9 is never observed); in general the loop exits at the
first round whose count equals the previous round's count (with the
previous-count accumulator starting at 0). -/
theorem C5_stability_termination :
    (∀ counts : Nat → Nat, counts 0 = 3 → counts 1 = 7 → counts 2 = 7 →
      scrollRounds counts = 3) ∧
    (∀ (counts : Nat → Nat) (k : Nat), k < MAX_SCROLLS →
      (∀ j, j < k → counts j ≠ if j = 0 then 0 else counts (j - 1)) →
      (counts k = if k = 0 then 0 else counts (k - 1)) →
      scrollRounds counts = k + 1) := by
  have gen : ∀ (counts : Nat → Nat) (k : Nat), k < MAX_SCROLLS →
      (∀ j, j < k → counts j ≠ if j = 0 then 0 else counts (j - 1)) →
      (counts k = if k = 0 then 0 else counts (k - 1)) →
      scrollRounds counts = k + 1 := by
    intro counts k hk hno hstop
    unfold scrollRounds
    exact scrollGo_first_stop counts MAX_SCROLLS 0 0 k (Nat.zero_le k) (by omega)
      (fun j _ hj2 => hno j hj2) hstop
  refine ⟨?_, gen⟩
  intro counts h0 h1 h2
  have hres := gen counts 2 (by norm_num [MAX_SCROLLS])
    (fun j hj => by
      interval_cases j
      · simp [h0]
      · simp [h1, h0])
    (by simp [h2, h1])
  simpa using hres

theorem C5_stability_termination_witness :
    scrollRounds (fun i => [3, 7, 7, 9].getD i 9) = 3 ∧
    scrollRounds (fun _ => 0) = 0 + 1 := by
  constructor
  · exact C5_stability_termination.1 _ rfl rfl rfl
  · exact C5_stability_termination.2 _ 0 (by norm_num [MAX_SCROLLS])
      (fun j hj => absurd hj (by omega)) (by simp)

/-- Claim C6: the Collector performs at most `MAX_SCROLLS` (50) scroll
rounds on any feed, and on a feed whose card count strictly grows every
round (starting above the initial accumulator value 0) it performs exactly
`MAX_SCROLLS` rounds. -/
theorem C6_scroll_bound :
    (∀ counts : Nat → Nat, scrollRounds counts ≤ MAX_SCROLLS) ∧
    (∀ counts : Nat → Nat, 0 < counts 0 → (∀ i, counts i < counts (i + 1)) →
      scrollRounds counts = MAX_SCROLLS) := by
  constructor
  · intro counts
    have := scrollGo_le counts MAX_SCROLLS 0 0
    simpa [scrollRounds] using this
  · intro counts h0 hmono
    unfold scrollRounds
    have hns := scrollGo_no_stop counts MAX_SCROLLS 0 0 (fun j _ hj2 => by
      by_cases hj : j = 0
      · subst hj
        simpa using h0.ne'
      · have hstep := hmono (j - 1)
        have hj1 : j - 1 + 1 = j := by omega
        rw [hj1] at hstep
        simp only [if_neg hj]
        omega)
    simpa using hns

theorem C6_scroll_bound_witness :
    scrollRounds (fun i => i + 1) = MAX_SCROLLS :=
  C6_scroll_bound.2 (fun i => i + 1) (Nat.succ_pos 0)
    (fun i => by show i + 1 < i + 1 + 1; omega)

/-- Claim C10: if the first observed card count is 0, the scroll loop exits
after exactly one round (the previous-count accumulator starts at 0, and the
loop breaks on equality), and `scrape_city` returns the empty batch, whatever
the feed would have rendered on later rounds. -/
theorem C10_zero_count_exit (feed : Nat → List Card) (h : feed 0 = []) :
    scrollRounds (fun i => (feed i).length) = 1 ∧ scrape_city feed = [] := by
  have hr : scrollRounds (fun i => (feed i).length) = 1 := by
    unfold scrollRounds
    have hc : (feed 0).length = 0 := by simp [h]
    have := @scrollGo_stop (fun i => (feed i).length) 0 0 MAX_SCROLLS
      (by norm_num [MAX_SCROLLS]) (by simpa using hc)
    simpa using this
  refine ⟨hr, ?_⟩
  unfold scrape_city
  rw [hr]
  simp [h, extractCards]

theorem C10_zero_count_exit_witness :
    (fun i => if i = 0 then ([] : List Card)
      else [{ nameText := some "Biz", websiteHref := some "http://b.example" }]) 0 = [] ∧
    (fun i => if i = 0 then ([] : List Card)
      else [{ nameText := some "Biz", websiteHref := some "http://b.example" }]) 1 ≠ [] ∧
    (scrollRounds (fun i => ((fun i => if i = 0 then ([] : List Card)
      else [{ nameText := some "Biz", websiteHref := some "http://b.example" }]) i).length) = 1 ∧
     scrape_city (fun i => if i = 0 then ([] : List Card)
      else [{ nameText := some "Biz", websiteHref := some "http://b.example" }]) = []) :=
  ⟨rfl, by decide, C10_zero_count_exit _ rfl⟩

theorem mem_extractCards {cards : List Card} {r : Record} (h : r ∈ extractCards cards) :
    ∃ c ∈ cards, extractCard c = some r := by
  simpa [extractCards, List.mem_filterMap] using h

theorem extractCard_eq_some {card : Card} {r : Record} (h : extractCard card = some r) :
    ∃ w, card.websiteHref = some w ∧ w ≠ "" ∧
      r.business_name = pyStrip (card.nameText.getD "") ∧ r.business_name ≠ "" ∧
      r.website = pyStrip w := by
  cases hA : card.websiteHref with
  | none =>
    rw [show extractCard card = none from by simp [extractCard, hA]] at h
    exact absurd h (by simp)
  | some w =>
    by_cases hw : w = ""
    · subst hw
      rw [show extractCard card = none from by simp [extractCard, hA]] at h
      exact absurd h (by simp)
    · by_cases hn : pyStrip (card.nameText.getD "") = ""
      · rw [show extractCard card = none from by simp [extractCard, hA, hn, hw]] at h
        exact absurd h (by simp)
      · have hsome : extractCard card =
            some { business_name := pyStrip (card.nameText.getD ""), website := pyStrip w } := by
          simp [extractCard, hA, hw, hn]
        rw [hsome] at h
        have h2 := Option.some.inj h
        exact ⟨w, rfl, hw, by rw [← h2], by rw [← h2]; exact hn, by rw [← h2]⟩

/-- Claim C1 (counterexample): a rendered card exposing a website link but no
name label yields NO output record: `if name and website` (scraper.py line
152) rejects it, so the batch for such a feed is empty, and in particular no
Record with empty business_name and non-empty website is output. -/
theorem C1_name_absent_counterexample :
    scrape_city (fun _ => [{ nameText := none, websiteHref := some "https://x.example" }]) = [] ∧
    ¬ ∃ r ∈ scrape_city (fun _ => [{ nameText := none, websiteHref := some "https://x.example" }]),
        r.business_name = "" ∧ r.website ≠ "" := by
  exact ⟨by decide, by decide⟩

/-- Claim C1 (amended): a website-present-but-name-absent card is skipped,
not kept: a card whose name label is missing or whitespace-only yields no
Record, and every Record in a collected batch has a non-empty business_name. -/
theorem C1_name_absent_amended :
    (∀ card : Card, pyStrip (card.nameText.getD "") = "" → extractCard card = none) ∧
    (∀ feed : Nat → List Card, ∀ r ∈ scrape_city feed, r.business_name ≠ "") := by
  constructor
  · intro card hn
    simp [extractCard, hn]
  · intro feed r hr
    simp only [scrape_city] at hr
    obtain ⟨c, _, hc⟩ := mem_extractCards hr
    obtain ⟨w, _, _, _, hbne, _⟩ := extractCard_eq_some hc
    exact hbne

theorem C1_name_absent_witness :
    extractCard { nameText := none, websiteHref := some "https://w.example" } = none ∧
    ({ business_name := "A", website := "w" } : Record).business_name ≠ "" :=
  ⟨C1_name_absent_amended.1 _ (by decide),
   C1_name_absent_amended.2 (fun _ => [{ nameText := some "A", websiteHref := some "w" }]) _
     (by decide)⟩

/-- Claim C7 (counterexample): a card whose website href is whitespace-only
passes the truthiness check at scraper.py line 143 but is stored stripped
(line 155), so the collected batch contains a Record with empty website. -/
theorem C7_nonempty_website_counterexample :
    scrape_city (fun _ => [{ nameText := some "Alpha", websiteHref := some " " }]) =
      [{ business_name := "Alpha", website := "" }] ∧
    ¬ ∀ r ∈ scrape_city (fun _ => [{ nameText := some "Alpha", websiteHref := some " " }]),
        r.website ≠ "" := by
  exact ⟨by decide, by decide⟩

/-- Claim C7 (amended): every collected Record's website is the trimmed href
of a card whose raw href was non-empty; cards lacking a website link (href
absent, `None`, or empty) contribute no Record; hence every Record's website
is non-empty provided no card carries a whitespace-only href. -/
theorem C7_nonempty_website_amended (feed : Nat → List Card)
    (hws : ∀ i, ∀ c ∈ feed i, ∀ w, c.websiteHref = some w → w ≠ "" → pyStrip w ≠ "") :
    (∀ r ∈ scrape_city feed, r.website ≠ "") ∧
    (∀ card : Card, card.websiteHref.getD "" = "" → extractCard card = none) := by
  constructor
  · intro r hr
    simp only [scrape_city] at hr
    obtain ⟨c, hcmem, hc⟩ := mem_extractCards hr
    obtain ⟨w, hA, hwne, _, _, hwt⟩ := extractCard_eq_some hc
    rw [hwt]
    exact hws _ c hcmem w hA hwne
  · intro card hw
    simp [extractCard, hw]

theorem C7_nonempty_website_witness :
    ({ business_name := "Alpha", website := "http://a.example" } : Record).website ≠ "" :=
  (C7_nonempty_website_amended
      (fun _ => [{ nameText := some "Alpha", websiteHref := some "http://a.example" }])
      (fun i c hc w hA hwne => by
        rw [List.mem_singleton] at hc
        subst hc
        have hw2 : w = "http://a.example" := (Option.some.inj hA).symm
        subst hw2
        decide)).1 _ (by decide)

theorem processBatch_all_mem (existing : List String) :
    ∀ l : List Record, (∀ r ∈ l, pyLower r.website ∈ existing) →
      processBatch existing l = ([], existing) := by
  intro l
  induction l with
  | nil => intro _; rfl
  | cons r rest ih =>
    intro h
    have hr : pyLower r.website ∈ existing := h r (List.mem_cons_self r rest)
    have hrest := ih (fun x hx => h x (List.mem_cons_of_mem r hx))
    simp [processBatch, hr, hrest]

theorem processBatch_append_mem (existing : List String) :
    ∀ (l1 l2 : List Record), (∀ r ∈ l1, pyLower r.website ∈ existing) →
      processBatch existing (l1 ++ l2) = processBatch existing l2 := by
  intro l1
  induction l1 with
  | nil => intro l2 _; rfl
  | cons r rest ih =>
    intro l2 h
    have hr : pyLower r.website ∈ existing := h r (List.mem_cons_self r rest)
    have hrest := ih l2 (fun x hx => h x (List.mem_cons_of_mem r hx))
    simp [processBatch, hr, hrest]

/-- Claim C2: with the known-set containing key K and a fresh batch made of
records keyed K (in any arrangement) around one record keyed K2 (K2 fresh),
the gate pends exactly the K2 record's row and appends exactly that one row
to the store. Keys are as the code computes them: `website.lower()` on
records whose websites are already stripped, i.e. the case/whitespace
insensitive identity key. -/
theorem C2_dedup_gate (existing : List String) (sheet : List (List String))
    (K K2 : String) (b1 b2 : List Record) (r : Record)
    (hK : K ∈ existing) (hK2 : K2 ∉ existing)
    (hb1 : ∀ x ∈ b1, pyStrip x.website = x.website ∧ pyLower (pyStrip x.website) = K)
    (hb2 : ∀ x ∈ b2, pyStrip x.website = x.website ∧ pyLower (pyStrip x.website) = K)
    (hr : pyStrip r.website = r.website) (hrK : pyLower (pyStrip r.website) = K2) :
    (processBatch existing (b1 ++ r :: b2)).1 = [[r.business_name, r.website]] ∧
    (processCity { sheet := sheet, existing := existing } (b1 ++ r :: b2)).sheet =
      sheet ++ [[r.business_name, r.website]] := by
  have hkey1 : ∀ x ∈ b1, pyLower x.website ∈ existing := fun x hx => by
    rw [← (hb1 x hx).1, (hb1 x hx).2]; exact hK
  have hrkey : pyLower r.website = K2 := by rw [← hr]; exact hrK
  have hkey2 : ∀ x ∈ b2, pyLower x.website ∈ K2 :: existing := fun x hx => by
    rw [← (hb2 x hx).1, (hb2 x hx).2]
    exact List.mem_cons_of_mem K2 hK
  have hall2 := processBatch_all_mem (K2 :: existing) b2 hkey2
  have h1 : processBatch existing (b1 ++ r :: b2) =
      ([[r.business_name, r.website]], K2 :: existing) := by
    rw [processBatch_append_mem existing b1 (r :: b2) hkey1]
    simp [processBatch, hrkey, hK2, hall2]
  refine ⟨by rw [h1], ?_⟩
  simp [processCity, h1]

theorem C2_dedup_gate_witness :
    (processBatch ["k.com"]
      ([{ business_name := "B1", website := "K.com" }] ++
        { business_name := "N", website := "N.com" } ::
        [{ business_name := "B2", website := "k.Com" }])).1 = [["N", "N.com"]] ∧
    (processCity { sheet := [headerRow], existing := ["k.com"] }
      ([{ business_name := "B1", website := "K.com" }] ++
        { business_name := "N", website := "N.com" } ::
        [{ business_name := "B2", website := "k.Com" }])).sheet =
      [headerRow] ++ [["N", "N.com"]] :=
  C2_dedup_gate ["k.com"] [headerRow] "k.com" "n.com" _ _ _ (by decide) (by decide)
    (by decide) (by decide) (by decide) (by decide)

theorem runBatches_all_mem (sheet : List (List String)) (existing : List String) :
    ∀ batches : List (List Record),
      (∀ b ∈ batches, ∀ r ∈ b, pyLower r.website ∈ existing) →
      runBatches { sheet := sheet, existing := existing } batches =
        { sheet := sheet, existing := existing } := by
  intro batches
  induction batches with
  | nil => intro _; rfl
  | cons b rest ih =>
    intro h
    have hb := h b (List.mem_cons_self b rest)
    have hpc : processCity { sheet := sheet, existing := existing } b =
        { sheet := sheet, existing := existing } := by
      simp [processCity, processBatch_all_mem existing b hb]
    have hstep : runBatches { sheet := sheet, existing := existing } (b :: rest) =
        runBatches (processCity { sheet := sheet, existing := existing } b) rest := rfl
    rw [hstep, hpc]
    exact ih (fun x hx => h x (List.mem_cons_of_mem b hx))

/-- Claim C3: when the store already holds the identity keys of every
collectable record (each record's stripped-lowercased website equals a key
loaded from the store by `get_existing_websites`), re-running the whole
enumeration appends zero rows: the store is unchanged. -/
theorem C3_idempotent_rerun (sheet : List (List String)) (batches : List (List Record))
    (h : ∀ b ∈ batches, ∀ r ∈ b, pyStrip r.website = r.website ∧
      pyLower (pyStrip r.website) ∈ get_existing_websites sheet) :
    (runBatches { sheet := sheet, existing := get_existing_websites sheet } batches).sheet
      = sheet := by
  have h' : ∀ b ∈ batches, ∀ r ∈ b, pyLower r.website ∈ get_existing_websites sheet :=
    fun b hb r hr => by
      have h2 := h b hb r hr
      rw [← h2.1]
      exact h2.2
  rw [runBatches_all_mem sheet (get_existing_websites sheet) batches h']

theorem C3_idempotent_rerun_witness :
    (runBatches
      { sheet := [headerRow, ["A", "a.com"]],
        existing := get_existing_websites [headerRow, ["A", "a.com"]] }
      [[{ business_name := "A", website := "a.com" }]]).sheet =
      [headerRow, ["A", "a.com"]] :=
  C3_idempotent_rerun [headerRow, ["A", "a.com"]]
    [[{ business_name := "A", website := "a.com" }]] (by decide)

/-- Claim C9: if the first row of the worksheet is not exactly
["business_name", "website"], `init_google_sheet` clears the ENTIRE sheet,
deleting every stored data row, and appends the header; the known-set loaded
immediately afterwards is therefore empty. -/
theorem C9_header_mismatch_clears (sheet : List (List String))
    (h : sheet.headD [] ≠ headerRow) :
    init_google_sheet sheet = [headerRow] ∧
    get_existing_websites (init_google_sheet sheet) = [] := by
  have h1 : init_google_sheet sheet = [headerRow] := by
    unfold init_google_sheet
    rw [if_neg h]
  exact ⟨h1, by rw [h1]; rfl⟩

theorem C9_header_mismatch_clears_witness :
    init_google_sheet [["stale"], ["Biz", "biz.com"]] = [headerRow] ∧
    get_existing_websites (init_google_sheet [["stale"], ["Biz", "biz.com"]]) = [] :=
  C9_header_mismatch_clears _ (by decide)

theorem cityStep_visited {σ ε : Type} (step : String → String → σ → Except ε σ)
    (q c : String) (os : OrchState σ ε) :
    (cityStep step q c os).visited = os.visited ++ [(q, c)] := by
  unfold cityStep
  cases step q c os.st <;> rfl

theorem foldl_cities_visited {σ ε : Type} (step : String → String → σ → Except ε σ)
    (q : String) :
    ∀ (l : List String) (os : OrchState σ ε),
      (l.foldl (fun os2 c => cityStep step q c os2) os).visited =
        os.visited ++ l.map (fun c => (q, c)) := by
  intro l
  induction l with
  | nil => intro os; simp
  | cons c t ih =>
    intro os
    simp only [List.foldl_cons, List.map_cons]
    rw [ih, cityStep_visited]
    simp

theorem main_enum_visited {σ ε : Type} (step : String → String → σ → Except ε σ) (s : σ) :
    (main_enum step s).visited = templateMajor := by
  have key : ∀ (qs : List String) (os : OrchState σ ε),
      (qs.foldl (fun os q => CITIES.foldl (fun os2 c => cityStep step q c os2) os) os).visited =
        os.visited ++ qs.flatMap (fun q => CITIES.map fun c => (q, c)) := by
    intro qs
    induction qs with
    | nil => intro os; simp
    | cons q t ih =>
      intro os
      simp only [List.foldl_cons, List.flatMap_cons]
      rw [ih, foldl_cities_visited]
      simp
  simpa [main_enum, templateMajor] using
    key BUSINESS_QUERIES { st := s, visited := [], errlog := [] }

/-- Claim C8: the orchestrator iterates template-major over the fixed
template and city lists, processing each (template, city) pair exactly once
with no retry; a step that raises is caught, the error is logged against the
city, the threaded state is kept, and the enumeration proceeds. -/
theorem C8_per_city_catch {σ ε : Type} (step : String → String → σ → Except ε σ) (s : σ) :
    (main_enum step s).visited = templateMajor ∧
    (main_enum step s).visited.Nodup ∧
    (∀ (q c : String) (os : OrchState σ ε) (e : ε), step q c os.st = Except.error e →
      cityStep step q c os =
        { st := os.st, visited := os.visited ++ [(q, c)], errlog := os.errlog ++ [(c, e)] }) := by
  refine ⟨main_enum_visited step s, ?_, ?_⟩
  · rw [main_enum_visited step s]
    have hform : templateMajor = BUSINESS_QUERIES ×ˢ CITIES := rfl
    rw [hform]
    have hq : BUSINESS_QUERIES.Nodup := by decide
    have hc : CITIES.Nodup := by decide
    exact hq.product hc
  · intro q c os e he
    simp [cityStep, he]

theorem C8_per_city_catch_witness :
    (main_enum (fun _ _ (_ : Nat) => (Except.error "boom" : Except String Nat)) 0).visited =
      templateMajor ∧
    cityStep (fun _ _ (_ : Nat) => (Except.error "boom" : Except String Nat)) "Q" "C"
      { st := 0, visited := [], errlog := [] } =
      { st := 0, visited := [("Q", "C")], errlog := [("C", "boom")] } := by
  constructor
  · exact (C8_per_city_catch _ 0).1
  · have h2 := (C8_per_city_catch (fun _ _ (_ : Nat) => (Except.error "boom" : Except String Nat))
      0).2.2 "Q" "C" { st := 0, visited := [], errlog := [] } "boom" rfl
    simpa using h2

theorem rowMainKey_pair (n w : String) : rowMainKey [n, w] = pyLower w := rfl

theorem rowNormKey_pair (n w : String) : rowNormKey [n, w] = pyLower (pyStrip w) := rfl

theorem processBatch_subset :
    ∀ (l : List Record) (existing : List String),
      existing ⊆ (processBatch existing l).2 := by
  intro l
  induction l with
  | nil => intro existing x hx; exact hx
  | cons r rest ih =>
    intro existing
    by_cases hk : pyLower r.website ∈ existing
    · rw [show processBatch existing (r :: rest) = processBatch existing rest from by
        simp [processBatch, hk]]
      exact ih existing
    · have h2 : (processBatch existing (r :: rest)).2 =
          (processBatch (pyLower r.website :: existing) rest).2 := by
        simp [processBatch, hk]
      rw [h2]
      exact fun x hx => ih (pyLower r.website :: existing) (List.mem_cons_of_mem _ hx)

theorem processBatch_rows_spec :
    ∀ (l : List Record) (existing : List String) (row : List String),
      row ∈ (processBatch existing l).1 →
      ∃ r, r ∈ l ∧ row = [r.business_name, r.website] ∧
        pyLower r.website ∉ existing ∧ pyLower r.website ∈ (processBatch existing l).2 := by
  intro l
  induction l with
  | nil => intro existing row h; exact absurd h (by simp [processBatch])
  | cons r rest ih =>
    intro existing row hrow
    by_cases hk : pyLower r.website ∈ existing
    · have he : processBatch existing (r :: rest) = processBatch existing rest := by
        simp [processBatch, hk]
      rw [he] at hrow ⊢
      obtain ⟨x, hx1, hx2, hx3, hx4⟩ := ih existing row hrow
      exact ⟨x, List.mem_cons_of_mem r hx1, hx2, hx3, hx4⟩
    · have h1 : (processBatch existing (r :: rest)).1 =
          [r.business_name, r.website] ::
            (processBatch (pyLower r.website :: existing) rest).1 := by
        simp [processBatch, hk]
      have h2 : (processBatch existing (r :: rest)).2 =
          (processBatch (pyLower r.website :: existing) rest).2 := by
        simp [processBatch, hk]
      rw [h1] at hrow
      rw [h2]
      rcases List.mem_cons.mp hrow with heq | hmem
      · refine ⟨r, List.mem_cons_self r rest, heq, hk, ?_⟩
        exact processBatch_subset rest (pyLower r.website :: existing)
          (List.mem_cons_self _ _)
      · obtain ⟨x, hx1, hx2, hx3, hx4⟩ := ih (pyLower r.website :: existing) row hmem
        refine ⟨x, List.mem_cons_of_mem r hx1, hx2, ?_, hx4⟩
        exact fun hc => hx3 (List.mem_cons_of_mem _ hc)

theorem processBatch_rows_pairwise :
    ∀ (l : List Record) (existing : List String),
      (processBatch existing l).1.Pairwise fun a b => rowMainKey a ≠ rowMainKey b := by
  intro l
  induction l with
  | nil => intro existing; simp [processBatch]
  | cons r rest ih =>
    intro existing
    by_cases hk : pyLower r.website ∈ existing
    · have he : processBatch existing (r :: rest) = processBatch existing rest := by
        simp [processBatch, hk]
      rw [he]
      exact ih existing
    · have h1 : (processBatch existing (r :: rest)).1 =
          [r.business_name, r.website] ::
            (processBatch (pyLower r.website :: existing) rest).1 := by
        simp [processBatch, hk]
      rw [h1]
      refine List.Pairwise.cons ?_ (ih (pyLower r.website :: existing))
      intro row hrow
      obtain ⟨x, _, hx2, hx3, _⟩ :=
        processBatch_rows_spec rest (pyLower r.website :: existing) row hrow
      subst hx2
      have hx5 : pyLower x.website ≠ pyLower r.website :=
        fun hc => hx3 (by rw [hc]; exact List.mem_cons_self _ _)
      simpa [rowMainKey_pair] using hx5.symm

theorem processCity_inv (st : RunState) (b : List Record)
    (hb : ∀ r ∈ b, goodRecord r) (hst : stateInv st) :
    stateInv (processCity st b) := by
  obtain ⟨⟨hhead, hgood, hpair⟩, hmem⟩ := hst
  have hex : (processCity st b).existing = (processBatch st.existing b).2 := by
    simp [processCity]
  by_cases hres : (processBatch st.existing b).1 = []
  · have hsheet : (processCity st b).sheet = st.sheet := by simp [processCity, hres]
    refine ⟨?_, ?_⟩
    · rw [hsheet]; exact ⟨hhead, hgood, hpair⟩
    · rw [hsheet, hex]
      exact fun row hrow => processBatch_subset b st.existing (hmem row hrow)
  · have hsheet : (processCity st b).sheet = st.sheet ++ (processBatch st.existing b).1 := by
      simp [processCity, hres]
    have hsne : st.sheet ≠ [] := by
      intro hnil
      rw [hnil] at hhead
      exact absurd hhead (by decide)
    have hheadap : (st.sheet ++ (processBatch st.existing b).1).headD [] =
        st.sheet.headD [] := by
      cases hC : st.sheet with
      | nil => exact absurd hC hsne
      | cons a t => rfl
    have hdropap : (st.sheet ++ (processBatch st.existing b).1).drop 1 =
        st.sheet.drop 1 ++ (processBatch st.existing b).1 := by
      cases hC : st.sheet with
      | nil => exact absurd hC hsne
      | cons a t => simp
    have hnewgood : ∀ row ∈ (processBatch st.existing b).1, rowGood row ∧
        rowNormKey row = rowMainKey row ∧ rowMainKey row ∉ st.existing ∧
        rowMainKey row ∈ (processBatch st.existing b).2 := by
      intro row hrow
      obtain ⟨r, hr1, hr2, hr3, hr4⟩ := processBatch_rows_spec b st.existing row hrow
      have hg := hb r hr1
      subst hr2
      refine ⟨⟨r.business_name, r.website, rfl, hg.2, hg.1⟩, ?_, ?_, ?_⟩
      · rw [rowNormKey_pair, rowMainKey_pair, hg.1]
      · rw [rowMainKey_pair]; exact hr3
      · rw [rowMainKey_pair]; exact hr4
    refine ⟨⟨?_, ?_, ?_⟩, ?_⟩
    · rw [hsheet, hheadap]; exact hhead
    · rw [hsheet, hdropap]
      intro row hrow
      rcases List.mem_append.mp hrow with hold | hnew
      · exact hgood row hold
      · exact (hnewgood row hnew).1
    · rw [hsheet, hdropap, List.pairwise_append]
      refine ⟨hpair, ?_, ?_⟩
      · refine (processBatch_rows_pairwise b st.existing).imp_of_mem ?_
        intro a c ha hc hne
        rw [(hnewgood a ha).2.1, (hnewgood c hc).2.1]
        exact hne
      · intro a ha c hc
        have h1 : rowNormKey a ∈ st.existing := hmem a ha
        have h2 := (hnewgood c hc).2.1
        have h3 := (hnewgood c hc).2.2.1
        rw [h2]
        intro hcontra
        rw [hcontra] at h1
        exact h3 h1
    · rw [hsheet, hdropap, hex]
      intro row hrow
      rcases List.mem_append.mp hrow with hold | hnew
      · exact processBatch_subset b st.existing (hmem row hold)
      · rw [(hnewgood row hnew).2.1]
        exact (hnewgood row hnew).2.2.2

theorem get_existing_complete {sheet : List (List String)}
    (hgood : ∀ row ∈ sheet.drop 1, rowGood row) :
    ∀ row ∈ sheet.drop 1, rowNormKey row ∈ get_existing_websites sheet := by
  intro row hrow
  obtain ⟨n, w, hrw, hwne, _⟩ := hgood row hrow
  subst hrw
  rw [rowNormKey_pair]
  unfold get_existing_websites
  rw [List.mem_filterMap]
  refine ⟨[n, w], hrow, ?_⟩
  show (if w = "" then none else some (pyLower (pyStrip w))) = some (pyLower (pyStrip w))
  rw [if_neg hwne]

theorem runOnce_inv (sheet : List (List String)) (batches : List (List Record))
    (hs : sheetInv sheet ∨ sheet = [])
    (hb : ∀ b ∈ batches, ∀ r ∈ b, goodRecord r) :
    sheetInv (runOnce sheet batches) := by
  have hinit : sheetInv (init_google_sheet sheet) := by
    rcases hs with h | h
    · rw [show init_google_sheet sheet = sheet from by
        unfold init_google_sheet; rw [if_pos h.1]]
      exact h
    · subst h
      rw [show init_google_sheet [] = [headerRow] from by decide]
      exact ⟨rfl, by simp, by simp⟩
  have hstate : stateInv
      { sheet := init_google_sheet sheet,
        existing := get_existing_websites (init_google_sheet sheet) } :=
    ⟨hinit, get_existing_complete hinit.2.1⟩
  have hfold : ∀ (bs : List (List Record)) (st : RunState),
      (∀ b ∈ bs, ∀ r ∈ b, goodRecord r) → stateInv st → stateInv (runBatches st bs) := by
    intro bs
    induction bs with
    | nil => intro st _ hst; exact hst
    | cons b rest ih =>
      intro st hgb hst
      have hstep : runBatches st (b :: rest) = runBatches (processCity st b) rest := rfl
      rw [hstep]
      exact ih (processCity st b) (fun x hx => hgb x (List.mem_cons_of_mem b hx))
        (processCity_inv st b (hgb b (List.mem_cons_self b rest)) hst)
  exact (hfold batches _ hb hstate).1

theorem runAll_inv :
    ∀ (runs : List (List (List Record))) (sheet : List (List String)),
      (sheetInv sheet ∨ sheet = []) →
      (∀ rn ∈ runs, ∀ b ∈ rn, ∀ r ∈ b, goodRecord r) →
      sheetInv (runAll sheet runs) ∨ runAll sheet runs = [] := by
  intro runs
  induction runs with
  | nil => intro sheet hs _; exact hs
  | cons rn rest ih =>
    intro sheet hs hg
    have hstep : runAll sheet (rn :: rest) = runAll (runOnce sheet rn) rest := rfl
    rw [hstep]
    exact ih (runOnce sheet rn)
      (Or.inl (runOnce_inv sheet rn hs (hg rn (List.mem_cons_self rn rest))))
      (fun x hx => hg x (List.mem_cons_of_mem rn hx))

/-- Claim C4 (counterexample): a record with empty website (which the
collector can produce from a whitespace-only href, see the C7 analysis) is
appended on one run; on the next run its row's empty website cell is
filtered out of the reloaded known-set (`if row[1]`, scraper.py line 93), so
an identical record is appended again: the lifetime now holds two appended
rows whose websites normalise to the same identity key. -/
theorem C4_at_most_once_counterexample :
    runAll [] [[[{ business_name := "Alpha", website := "" }]],
               [[{ business_name := "Alpha", website := "" }]]] =
      [headerRow, ["Alpha", ""], ["Alpha", ""]] ∧
    ¬ ((runAll [] [[[{ business_name := "Alpha", website := "" }]],
               [[{ business_name := "Alpha", website := "" }]]]).drop 1).Pairwise
        (fun a b => rowNormKey a ≠ rowNormKey b) := by
  exact ⟨by decide, by decide⟩

/-- Claim C4 (amended): starting from a fresh store, across the store's
whole lifetime (each run re-checking the header and reloading the known-set
from the store), no two appended rows carry websites normalising (trim +
lowercase) to the same identity key, PROVIDED every appended record's
website is whitespace-trimmed and non-empty — as every collector record is,
except one built from a whitespace-only href. Rows with empty website cells
escape the known-set reload and can repeat across runs (see the
counterexample). -/
theorem C4_at_most_once_amended (runs : List (List (List Record)))
    (h : ∀ rn ∈ runs, ∀ b ∈ rn, ∀ r ∈ b, pyStrip r.website = r.website ∧ r.website ≠ "") :
    ((runAll [] runs).drop 1).Pairwise fun a b => rowNormKey a ≠ rowNormKey b := by
  rcases runAll_inv runs [] (Or.inr rfl) h with hinv | hnil
  · exact hinv.2.2
  · rw [hnil]; simp

theorem C4_at_most_once_amended_witness :
    ((runAll [] [[[{ business_name := "A", website := "a.com" }]],
                 [[{ business_name := "B", website := "b.com" }]]]).drop 1).Pairwise
      (fun a b => rowNormKey a ≠ rowNormKey b) :=
  C4_at_most_once_amended _ (by decide)

end Scraper
